import Mathlib

/-!
Shallow embedding of the core of `Benchmark.py` (a CPU micro-benchmark
harness).  Durations and medians are modelled as exact rationals (the Python
code uses binary floats; every claim checked here is about control flow,
ordering and exact arithmetic identities, not float rounding).  Python
exceptions are modelled with `Except PyError`; a raised exception propagates
exactly where the Python code would let it escape.
-/

/-- Python exceptions that the modelled code can raise. -/
inductive PyError
  | jsonDecode   -- json.loads on a malformed line
  | keyError     -- dict lookup of a missing key
  | zeroDiv      -- division by zero
  | valueError   -- list.index on a missing value
deriving DecidableEq, Repr

/-- One persisted benchmark record, with the fields the core logic reads.
Models the dict produced by `json.loads` of one line of
`cpu_benchmark_results.jsonl`; keys that may be absent (old-format records,
records without a memory block) are `Option`s. -/
structure ResultRecord where
  system_name : String
  primes_median : Option ℚ
  pi_median : Option ℚ
  hash_median : Option ℚ
  memory_median : Option ℚ
deriving DecidableEq, Repr

/-- One line of the results file as `load_results` classifies it:
a line whose `strip()` is empty, a line `json.loads` parses into a result
record, or a non-blank line `json.loads` rejects. -/
inductive StoreLine
  | blank
  | record (r : ResultRecord)
  | malformed
deriving DecidableEq, Repr

/-- The record carried by a store line, if any. -/
def StoreLine.record? : StoreLine → Option ResultRecord
  | .record r => some r
  | _ => none

/-- Body of the read loop of `load_results` (Benchmark.py lines 244-247):
blank lines are skipped, a parsed line is appended to the result list, and
`json.loads` raising on a malformed line aborts the whole load. -/
def loadLines : List StoreLine → Except PyError (List ResultRecord)
  | [] => .ok []
  | .blank :: rest => loadLines rest
  | .malformed :: _ => .error .jsonDecode
  | .record r :: rest => (loadLines rest).map (r :: ·)

/-- `load_results` (Benchmark.py lines 240-248).  The file is `none` when
`Path(RESULTS_FILE).exists()` is false, in which case the empty list is
returned without reading. -/
def load_results (file : Option (List StoreLine)) : Except PyError (List ResultRecord) :=
  match file with
  | none => .ok []
  | some lines => loadLines lines

/-- The store-level effect of `log_results` (Benchmark.py lines 237-238):
opening the file in append mode (creating it when absent) and writing the
serialized record plus a newline as one new final line. -/
def appendRecord (file : Option (List StoreLine)) (r : ResultRecord) : List StoreLine :=
  (file.getD []) ++ [.record r]

/-- Python's `str.lower()`: each character lower-cased (ASCII-faithful). -/
def pyLower (s : String) : String :=
  ⟨s.data.map Char.toLower⟩

/-- Python's `str.strip()`: leading and trailing whitespace removed. -/
def pyStrip (s : String) : String :=
  ⟨((s.data.dropWhile Char.isWhitespace).reverse.dropWhile Char.isWhitespace).reverse⟩

/-- `delete_by_system_name` (Benchmark.py lines 321-366), with the two
`input()` calls made explicit parameters: the raw system-name entry and the
raw confirmation entry.  Returns the resulting stored record sequence and the
number of entries deleted.  Mirrors the source's guards in order: empty
store, the `'cancel'` abort (after `.strip()`, compared via `.lower()`),
the nothing-matched early return, and the `y` confirmation. -/
def delete_by_system_name (store : List ResultRecord) (nameInput confirmInput : String) :
    List ResultRecord × Nat :=
  if store = [] then (store, 0)
  else
    let system_name := pyStrip nameInput
    if pyLower system_name = "cancel" then (store, 0)
    else
      let filtered := store.filter (fun r => r.system_name ≠ system_name)
      if filtered.length = store.length then (store, 0)
      else
        let deleted := store.length - filtered.length
        let confirm := pyLower (pyStrip confirmInput)
        if confirm ≠ "y" then (store, 0)
        else (filtered, deleted)

/-- The candidate label `f"{base_name}_{counter}"` built by
`get_unique_system_name` (Benchmark.py line 260): the base, an underscore,
and the decimal rendering of the counter. -/
def mkLabel (base : String) (k : Nat) : String :=
  base ++ "_" ++ Nat.repr k

/-- The `while` loop of `get_unique_system_name` (Benchmark.py lines 260-261),
written with explicit fuel: as long as the candidate label is taken, the
counter is incremented.  `suffixFuel` below supplies fuel that provably
suffices, so the function computes exactly what the unbounded loop does. -/
def findSuffixFrom (base : String) (existing : List String) : Nat → Nat → Nat
  | 0, counter => counter
  | fuel + 1, counter =>
    if mkLabel base counter ∈ existing then findSuffixFrom base existing fuel (counter + 1)
    else counter

/-- Fuel for `findSuffixFrom`: among the `existing.length + 1` candidate
labels tried first, at least one is free, so the loop stops within this many
steps. -/
def suffixFuel (existing : List String) : Nat :=
  existing.length + 1

/-- `get_unique_system_name` (Benchmark.py lines 250-263), with the set of
existing names (built there from `load_results`) passed explicitly; only
membership in it is consulted, so a list models the Python set faithfully. -/
def get_unique_system_name (base : String) (existing : List String) : String :=
  if base ∈ existing then
    mkLabel base (findSuffixFrom base existing (suffixFuel existing) 2)
  else base

/-- Python's `sorted`/`list.sort` on rationals: any correct sort of numbers,
here insertion sort; on a decidable linear order the sorted permutation of a
list is unique, so this is denotationally the list Python produces. -/
def pySort (xs : List ℚ) : List ℚ :=
  List.insertionSort (· ≤ ·) xs

/-- Python's `list.index`: the index of the first element equal to `v`, or a
`ValueError` when no element matches. -/
def pyIndex : List ℚ → ℚ → Except PyError Nat
  | [], _ => .error .valueError
  | x :: xs, v => if x = v then .ok 0 else (pyIndex xs v).map (· + 1)

/-- Lookup `d[key]` of an optional field: a missing key raises `KeyError`. -/
def getField (o : Option ℚ) : Except PyError ℚ :=
  match o with
  | some x => .ok x
  | none => .error .keyError

/-- The percent-delta expression
`((current[k] - previous[k]) / previous[k]) * 100` used at Benchmark.py
lines 387, 397, 405 and 414.  Python raises `ZeroDivisionError` when the
previous median is zero; there is no guard in the source. -/
def pctDiff (cur prev : ℚ) : Except PyError ℚ :=
  if prev = 0 then .error .zeroDiv else .ok ((cur - prev) / prev * 100)

/-- One line of console output of `show_comparison_and_history`, keeping the
data the claims are about: a per-workload comparison (the print shows the
current median and `abs(delta)` rounded to one decimal together with the
status word), the percentile-rank line, and the consistency line. -/
inductive OutLine
  | cmp (workload : String) (delta : ℚ) (status : String)
  | rank (pos total : Nat)
  | consistency (pct : ℚ) (level : String)
deriving DecidableEq, Repr

/-- One workload comparison (e.g. Benchmark.py lines 387-394): look up the
current and previous medians (current first, as in the source expression),
divide, and classify — `"faster"` when the delta is negative, `"slower"`
otherwise. -/
def cmpOne (workload : String) (curF prevF : Option ℚ) : Except PyError OutLine := do
  let c ← getField curF
  let p ← getField prevF
  let d ← pctDiff c p
  pure (OutLine.cmp workload d (if d < 0 then "faster" else "slower"))

/-- The comparison block of `show_comparison_and_history` (Benchmark.py
lines 384-419): guarded by `'primes_median' in previous`; primes, pi and
hash are compared unconditionally inside the guard, memory only when the
key is present in both records.  Output lines are emitted as they are
printed, and an exception stops the block where it is raised, returning the
lines printed so far together with the error. -/
def comparisonEmit (previous current : ResultRecord) : List OutLine × Option PyError :=
  if previous.primes_median.isSome then
    match cmpOne "primes" current.primes_median previous.primes_median with
    | .error e => ([], some e)
    | .ok lp =>
      match cmpOne "pi" current.pi_median previous.pi_median with
      | .error e => ([lp], some e)
      | .ok lq =>
        match cmpOne "hash" current.hash_median previous.hash_median with
        | .error e => ([lp, lq], some e)
        | .ok lh =>
          if previous.memory_median.isSome && current.memory_median.isSome then
            match cmpOne "memory" current.memory_median previous.memory_median with
            | .error e => ([lp, lq, lh], some e)
            | .ok lm => ([lp, lq, lh, lm], none)
          else ([lp, lq, lh], none)
  else ([], none)

/-- The per-workload statistics dict handed to `show_comparison_and_history`
(`median`/`min`/`max`/`stddev` of the current session, Benchmark.py
lines 111-116 and its three clones), with the float values as rationals. -/
structure Stats where
  median : ℚ
  min : ℚ
  max : ℚ
  stddev : ℚ
deriving DecidableEq, Repr

/-- `show_comparison_and_history` (Benchmark.py lines 368-448) as an output
trace: fewer than two stored records prints only the no-previous-runs notice
(no trace lines we track); otherwise the comparison block runs on
`results[-2]`/`results[-1]`, then — only when `'primes_median' in current` —
the percentile-rank line over the sorted primes medians of all records that
have one, and the consistency line from the current session's primes/pi/hash
statistics (`avg_stddev / avg_median * 100`, guarded to `0` when the average
median is not positive).  An exception anywhere stops the trace. -/
def show_comparison_and_history (pS piS hS _mS : Stats) (results : List ResultRecord) :
    List OutLine × Option PyError :=
  match results.reverse with
  | current :: previous :: _ =>
    match comparisonEmit previous current with
    | (lines1, some e) => (lines1, some e)
    | (lines1, none) =>
      match current.primes_median with
      | none => (lines1, none)
      | some cm =>
        let all_primes_times := results.filterMap (·.primes_median)
        let sortedTimes := pySort all_primes_times
        match pyIndex sortedTimes cm with
        | .error e => (lines1, some e)
        | .ok i =>
          let avg_stddev := (pS.stddev + piS.stddev + hS.stddev) / 3
          let avg_median := (pS.median + piS.median + hS.median) / 3
          let variance_pct := if avg_median > 0 then avg_stddev / avg_median * 100 else 0
          let level :=
            if variance_pct < 5 then "consistent"
            else if variance_pct > 10 then "high variance"
            else "acceptable"
          (lines1 ++ [OutLine.rank (i + 1) sortedTimes.length,
                      OutLine.consistency variance_pct level], none)
  | _ => ([], none)

/-- Python's `min(times)` on a non-empty list (the empty case, on which
Python raises, never occurs: every benchmark runs at least once). -/
def pyMin : List ℚ → ℚ
  | [] => 0
  | x :: xs => xs.foldl min x

/-- Python's `max(times)` on a non-empty list. -/
def pyMax : List ℚ → ℚ
  | [] => 0
  | x :: xs => xs.foldl max x

/-- Python's `statistics.median`: sort, take the middle element for odd
length, the mean of the two middle elements for even length. -/
def pyMedian (xs : List ℚ) : ℚ :=
  let s := pySort xs
  let n := s.length
  if n % 2 = 1 then s.getD (n / 2) 0
  else (s.getD (n / 2 - 1) 0 + s.getD (n / 2) 0) / 2

/-- Arithmetic mean, as used inside `statistics.stdev`. -/
def listMean (xs : List ℚ) : ℚ :=
  xs.sum / xs.length

/-- The sample variance with Bessel's correction (division by `n - 1`),
the square of what Python's `statistics.stdev` returns.  Only evaluated
behind the `len(times) > 1` guard. -/
def sampleVariance (xs : List ℚ) : ℚ :=
  (xs.map (fun x => (x - listMean xs) ^ 2)).sum / ((xs.length : ℚ) - 1)

/-- The guarded stddev of Benchmark.py line 115 (and its clones at 144, 171,
199), modelled by its square: `statistics.stdev(times) if len(times) > 1
else 0.0`.  The stddev itself is the square root of this value, so it is
`0` exactly when this value is `0`. -/
def trialStddevSq (times : List ℚ) : ℚ :=
  if 1 < times.length then sampleVariance times else 0

/-- The statistics dict built at Benchmark.py lines 111-116 (identically at
140-145, 167-172 and 195-200) from the list of trial durations; the
`'stddev'` entry is the square root of `stddevSq`. -/
structure TrialStats where
  median : ℚ
  min : ℚ
  max : ℚ
  stddevSq : ℚ
deriving DecidableEq, Repr

/-- Builds the trial statistics from the collected durations. -/
def mkTrialStats (times : List ℚ) : TrialStats :=
  { median := pyMedian times
    min := pyMin times
    max := pyMax times
    stddevSq := trialStddevSq times }

/-- The prime-count validation of Benchmark.py line 481:
`assert prime_count == 78498`, caught as a reported (non-fatal) failure. -/
def validate_primes (prime_count : Nat) : Bool :=
  prime_count == 78498

/-- The pi validation of Benchmark.py line 496: `3.13 <= pi_val <= 3.15`. -/
def validate_pi (pi_val : ℚ) : Bool :=
  decide (313 / 100 ≤ pi_val ∧ pi_val ≤ 315 / 100)

/-- The hash validation of Benchmark.py line 511: a 10-character string of
lowercase hex digits. -/
def validate_hash (s : String) : Bool :=
  s.length == 10 && s.all (fun c => "0123456789abcdef".contains c)

/-- The memory validation of Benchmark.py line 526: `memory_sum > 0`. -/
def validate_memory (memory_sum : Int) : Bool :=
  decide (0 < memory_sum)

/-- Python's `round(x, 4)` as used by `log_results`; modelled with
round-half-up on exact rationals (the float rounds to the nearest
representable, half-to-even — identical except on exact half-way ties,
which no claim exercises). -/
def pyRound4 (x : ℚ) : ℚ :=
  ((round (x * 10000) : ℤ) : ℚ) / 10000

/-- The record dict assembled by `log_results` (Benchmark.py lines 207-235),
restricted to the fields the core logic reads back: the system name, the
rounded medians, and the memory median only when memory statistics were
passed.  The environment metadata fields (timestamp, platform, cpu data)
come from external probes and are not read by any modelled logic. -/
def logRecord (system_name : String) (pS piS hS : Stats) (mS : Option Stats) : ResultRecord :=
  { system_name := system_name
    primes_median := some (pyRound4 pS.median)
    pi_median := some (pyRound4 piS.median)
    hash_median := some (pyRound4 hS.median)
    memory_median := mS.map (fun s => pyRound4 s.median) }

/-- `log_results` (Benchmark.py lines 203-238): build the record and append
it to the store file as one new line. -/
def log_results (system_name : String) (pS piS hS : Stats) (mS : Option Stats)
    (file : Option (List StoreLine)) : List StoreLine :=
  appendRecord file (logRecord system_name pS piS hS mS)

/-- `run_benchmark` (Benchmark.py lines 450-538) from the point where the
workload outcomes are known: the stripped name entry, the four statistics
dicts and their representative results (`stats['result']`) are parameters,
since the workload bodies and probes are external timed collaborators (the
system-load pre-check is assumed answered with continue).  An empty stripped
name aborts before anything runs.  Otherwise the unique name is resolved
against the loaded store (a malformed store propagates the load error), the
four validations produce their reported outcomes, and `log_results` appends
the record unconditionally — validation failures never prevent it.  The
history display that follows the append cannot undo it and is modelled
separately by `show_comparison_and_history`. -/
def run_benchmark (file : Option (List StoreLine)) (nameInput : String)
    (pS : Stats) (primeCount : Nat) (piS : Stats) (piVal : ℚ)
    (hS : Stats) (hashSample : String) (mS : Stats) (memSum : Int) :
    Except PyError (Option (List StoreLine) × List Bool) :=
  let system_name := pyStrip nameInput
  if system_name = "" then .ok (file, [])
  else do
    let results ← load_results file
    let uniqueName := get_unique_system_name system_name (results.map (·.system_name))
    let checks := [validate_primes primeCount, validate_pi piVal,
                   validate_hash hashSample, validate_memory memSum]
    let file2 := log_results uniqueName pS piS hS (some mS) file
    pure (some file2, checks)

/-! ### Concrete records used by witnesses and counterexamples -/

/-- A record with only a system name (medians absent), as a legacy-format
line would produce. -/
def plainRec (name : String) : ResultRecord :=
  ⟨name, none, none, none, none⟩

/-- A current-format record without a memory block. -/
def coreRec (name : String) (p q h : ℚ) : ResultRecord :=
  ⟨name, some p, some q, some h, none⟩

/-- A record carrying only a memory median. -/
def memRec (name : String) (m : ℚ) : ResultRecord :=
  ⟨name, none, none, none, some m⟩

/-! ### Result store: loading (C1) and the append round trip (C6) -/

theorem loadLines_of_no_malformed (lines : List StoreLine)
    (h : StoreLine.malformed ∉ lines) :
    loadLines lines = .ok (lines.filterMap StoreLine.record?) := by
  induction lines with
  | nil => rfl
  | cons l rest ih =>
    have hrest : StoreLine.malformed ∉ rest := fun hm => h (List.mem_cons_of_mem _ hm)
    cases l with
    | blank => simpa [loadLines, StoreLine.record?] using ih hrest
    | record r => simp [loadLines, StoreLine.record?, ih hrest, Except.map]
    | malformed => exact absurd (List.mem_cons_self _ _) h

theorem loadLines_error_of_malformed (lines : List StoreLine)
    (h : StoreLine.malformed ∈ lines) :
    loadLines lines = .error .jsonDecode := by
  induction lines with
  | nil => cases h
  | cons l rest ih =>
    cases l with
    | blank =>
      have : StoreLine.malformed ∈ rest := by simpa [StoreLine.record?] using h
      simpa [loadLines] using ih this
    | record r =>
      have : StoreLine.malformed ∈ rest := by simpa using h
      simp [loadLines, ih this, Except.map]
    | malformed => rfl

/-- C1 (amended): `load_results` reads the persisted log front-to-back and
returns one record per non-blank well-formed line, skipping blank lines; an
empty or non-existent store yields an empty sequence; but a malformed line
is not skipped — `json.loads` raises and the whole load fails, wherever the
malformed line sits. -/
theorem load_results_spec :
    load_results none = .ok []
    ∧ load_results (some []) = .ok []
    ∧ (∀ lines : List StoreLine, StoreLine.malformed ∉ lines →
        load_results (some lines) = .ok (lines.filterMap StoreLine.record?))
    ∧ (∀ lines : List StoreLine, StoreLine.malformed ∈ lines →
        load_results (some lines) = .error .jsonDecode) :=
  ⟨rfl, rfl, fun lines h => loadLines_of_no_malformed lines h,
    fun lines h => loadLines_error_of_malformed lines h⟩

/-- C1 witness: a store of a blank line, two records and a trailing blank
line loads to exactly those two records in order. -/
theorem load_results_spec_witness :
    (StoreLine.malformed ∉
      [StoreLine.blank, StoreLine.record (plainRec "A"),
       StoreLine.record (plainRec "B"), StoreLine.blank])
    ∧ load_results (some
        [StoreLine.blank, StoreLine.record (plainRec "A"),
         StoreLine.record (plainRec "B"), StoreLine.blank])
      = .ok [plainRec "A", plainRec "B"] :=
  ⟨by decide, load_results_spec.2.2.1 _ (by decide)⟩

/-- C1 counterexample: the claim says a malformed line is skipped and the
load still succeeds, but on a store holding one malformed line the load
raises a JSON decode error instead of returning an empty sequence. -/
theorem load_results_malformed_cex :
    load_results (some [StoreLine.malformed]) = .error .jsonDecode := rfl

theorem loadLines_append_record (xs : List StoreLine) (r : ResultRecord) :
    loadLines (xs ++ [.record r]) = (loadLines xs).map (· ++ [r]) := by
  induction xs with
  | nil => rfl
  | cons l rest ih =>
    cases l with
    | blank => simpa [loadLines] using ih
    | malformed => rfl
    | record a =>
      have h1 : loadLines (StoreLine.record a :: (rest ++ [StoreLine.record r]))
          = (loadLines (rest ++ [StoreLine.record r])).map (a :: ·) := rfl
      have h2 : loadLines (StoreLine.record a :: rest)
          = (loadLines rest).map (a :: ·) := rfl
      rw [List.cons_append, h1, ih, h2]
      cases loadLines rest with
      | error e => rfl
      | ok l => rfl

/-- C6 (amended): on every store that loads successfully (so: no malformed
line), appending a record and loading again yields the previously stored
records unchanged and in their original order, with the new record last;
this covers the non-existent store, which append creates. -/
theorem append_then_load (file : Option (List StoreLine)) (r : ResultRecord)
    (rs : List ResultRecord) (h : load_results file = .ok rs) :
    load_results (some (appendRecord file r)) = .ok (rs ++ [r]) := by
  cases file with
  | none =>
    have hrs : rs = [] := by
      simpa [load_results] using h.symm
    simp [hrs, load_results, appendRecord, loadLines, Except.map]
  | some lines =>
    have h' : loadLines lines = .ok rs := h
    simp [load_results, appendRecord, loadLines_append_record, h', Except.map]

/-- C6 witness: appending to a one-record store, and to a store that does
not exist yet. -/
theorem append_then_load_witness :
    (load_results (some [StoreLine.record (plainRec "A")]) = .ok [plainRec "A"])
    ∧ load_results (some (appendRecord (some [StoreLine.record (plainRec "A")]) (plainRec "B")))
        = .ok [plainRec "A", plainRec "B"]
    ∧ load_results (some (appendRecord none (plainRec "C"))) = .ok [plainRec "C"] :=
  ⟨rfl, append_then_load _ (plainRec "B") [plainRec "A"] rfl,
    append_then_load none (plainRec "C") [] rfl⟩

/-- C6 counterexample: the claim quantifies over every store state, but if
the existing store contains a malformed line, `append(r); loadAll()` does
not yield a sequence ending in `r` — the load raises instead. -/
theorem append_then_load_malformed_cex :
    load_results (some (appendRecord (some [StoreLine.malformed]) (plainRec "B")))
      = .error .jsonDecode := rfl

/-! ### Delete by system name (C4, C10) -/

theorem filter_ne_length_add_countP (store : List ResultRecord) (label : String) :
    (store.filter (fun r => r.system_name ≠ label)).length
      + store.countP (fun r => r.system_name == label) = store.length := by
  induction store with
  | nil => rfl
  | cons r rest ih =>
    simp only [ne_eq, decide_not] at ih ⊢
    by_cases hr : r.system_name = label <;>
      simp [List.filter_cons, List.countP_cons, hr] <;>
      omega

/-- C4 (amended): provided the entered label does not lower-case to
`"cancel"` (the abort guard, see C10) and the deletion is confirmed with
`"y"`, `delete_by_system_name` removes exactly the records whose
`system_name` equals the stripped label — it stores the order-preserving
filter of the non-matching records — and returns the number removed; with
zero matches the store is untouched and the count is `0`, and deleting the
same label again removes nothing and leaves the store unchanged. -/
theorem delete_by_label_spec (store : List ResultRecord) (nameInput confirmInput : String)
    (hCancel : pyLower (pyStrip nameInput) ≠ "cancel")
    (hConfirm : pyLower (pyStrip confirmInput) = "y") :
    (store.countP (fun r => r.system_name == pyStrip nameInput) = 0 →
      delete_by_system_name store nameInput confirmInput = (store, 0))
    ∧ (store.countP (fun r => r.system_name == pyStrip nameInput) ≠ 0 →
      delete_by_system_name store nameInput confirmInput =
        (store.filter (fun r => r.system_name ≠ pyStrip nameInput),
         store.countP (fun r => r.system_name == pyStrip nameInput)))
    ∧ delete_by_system_name (store.filter (fun r => r.system_name ≠ pyStrip nameInput))
        nameInput confirmInput
      = (store.filter (fun r => r.system_name ≠ pyStrip nameInput), 0) := by
  have hlen := filter_ne_length_add_countP store (pyStrip nameInput)
  refine ⟨?_, ?_, ?_⟩
  · intro h0
    by_cases hs : store = []
    · simp only [delete_by_system_name]
      rw [if_pos hs]
    · simp only [delete_by_system_name]
      rw [if_neg hs, if_neg hCancel,
        if_pos (show (store.filter (fun r => r.system_name ≠ pyStrip nameInput)).length
          = store.length by omega)]
  · intro hne
    have hs : store ≠ [] := by
      intro hs
      rw [hs] at hne
      exact hne rfl
    have hflt : ¬ (store.filter (fun r => r.system_name ≠ pyStrip nameInput)).length
        = store.length := by omega
    simp only [delete_by_system_name]
    rw [if_neg hs, if_neg hCancel, if_neg hflt,
      if_neg (show ¬ pyLower (pyStrip confirmInput) ≠ "y" from fun h => h hConfirm)]
    refine Prod.ext rfl ?_
    show store.length - (store.filter (fun r => r.system_name ≠ pyStrip nameInput)).length
      = store.countP (fun r => r.system_name == pyStrip nameInput)
    omega
  · have hself : (store.filter (fun r => r.system_name ≠ pyStrip nameInput)).filter
        (fun r => r.system_name ≠ pyStrip nameInput)
        = store.filter (fun r => r.system_name ≠ pyStrip nameInput) :=
      List.filter_eq_self.mpr (fun a ha => (List.mem_filter.mp ha).2)
    by_cases hs : store.filter (fun r => r.system_name ≠ pyStrip nameInput) = []
    · simp only [delete_by_system_name]
      rw [if_pos hs]
    · simp only [delete_by_system_name]
      rw [if_neg hs, if_neg hCancel, if_pos (by rw [hself])]

/-- C4 witness: deleting label `"A"` from a store `[A, B, A, C]` (confirmed
with `"y"`) yields `[B, C]` with count `2`, and deleting `"A"` again returns
`0` leaving `[B, C]` unchanged. -/
theorem delete_by_label_spec_witness :
    (pyLower (pyStrip "A") ≠ "cancel")
    ∧ (pyLower (pyStrip "y") = "y")
    ∧ delete_by_system_name [plainRec "A", plainRec "B", plainRec "A", plainRec "C"] "A" "y"
        = ([plainRec "B", plainRec "C"], 2)
    ∧ delete_by_system_name [plainRec "B", plainRec "C"] "A" "y"
        = ([plainRec "B", plainRec "C"], 0) := by
  refine ⟨by decide, rfl, ?_, ?_⟩
  · have h := (delete_by_label_spec
      [plainRec "A", plainRec "B", plainRec "A", plainRec "C"] "A" "y"
      (by decide) rfl).2.1 (by decide)
    simpa using h
  · have h := (delete_by_label_spec [plainRec "B", plainRec "C"] "A" "y"
      (by decide) rfl).1 (by decide)
    simpa using h

/-- C4 counterexample: the claim quantifies over every label, but a record
labelled `"cancel"` is not removed when the label `"cancel"` is entered —
the operation aborts and returns the store untouched with no records
removed, instead of removing the matching record. -/
theorem delete_by_label_cancel_cex :
    delete_by_system_name [plainRec "cancel"] "cancel" "y" = ([plainRec "cancel"], 0) := by
  decide

/-- C10 (confirmed): an entered label that lower-cases to `"cancel"` makes
the delete operation abort with the store unchanged and nothing deleted
(the guard fires after `strip()`, before any filtering or rewrite), and
consequently a stored record whose `system_name` lower-cases to `"cancel"`
survives every `delete_by_system_name` call, whatever is entered. -/
theorem cancel_guard (store : List ResultRecord) (nameInput confirmInput : String) :
    (pyLower (pyStrip nameInput) = "cancel" →
      delete_by_system_name store nameInput confirmInput = (store, 0))
    ∧ (∀ r ∈ store, pyLower r.system_name = "cancel" →
        r ∈ (delete_by_system_name store nameInput confirmInput).1) := by
  constructor
  · intro hc
    by_cases hs : store = []
    · simp only [delete_by_system_name]
      rw [if_pos hs]
    · simp only [delete_by_system_name]
      rw [if_neg hs, if_pos hc]
  · intro r hr hcr
    by_cases hs : store = []
    · simp only [delete_by_system_name]
      rw [if_pos hs]
      exact hr
    · by_cases hc : pyLower (pyStrip nameInput) = "cancel"
      · simp only [delete_by_system_name]
        rw [if_neg hs, if_pos hc]
        exact hr
      · by_cases hflt : (store.filter (fun a => a.system_name ≠ pyStrip nameInput)).length
            = store.length
        · simp only [delete_by_system_name]
          rw [if_neg hs, if_neg hc, if_pos hflt]
          exact hr
        · have hrne : r.system_name ≠ pyStrip nameInput := by
            intro heq
            exact hc (heq ▸ hcr)
          by_cases hcf : pyLower (pyStrip confirmInput) ≠ "y"
          · simp only [delete_by_system_name]
            rw [if_neg hs, if_neg hc, if_neg hflt, if_pos hcf]
            exact hr
          · simp only [delete_by_system_name]
            rw [if_neg hs, if_neg hc, if_neg hflt, if_neg hcf]
            exact List.mem_filter.mpr ⟨hr, by simpa using hrne⟩

/-- C10 witness: entering `"CANCEL"` aborts the deletion on a store holding
a record labelled `"Cancel"`, and that record also survives a deletion
attempt under a different entered label. -/
theorem cancel_guard_witness :
    (pyLower (pyStrip "CANCEL") = "cancel")
    ∧ delete_by_system_name [plainRec "Cancel"] "CANCEL" "y" = ([plainRec "Cancel"], 0)
    ∧ plainRec "Cancel" ∈ (delete_by_system_name [plainRec "Cancel"] "other" "y").1 :=
  ⟨rfl, (cancel_guard [plainRec "Cancel"] "CANCEL" "y").1 rfl,
    (cancel_guard [plainRec "Cancel"] "other" "y").2 (plainRec "Cancel")
      (by decide) rfl⟩

/-! ### Prime-count validation and session persistence (C9) -/

/-- C9 (confirmed): the prime-count validation passes exactly on `78498`
(the exact prime count below the configured limit 1,000,000 asserted at
Benchmark.py line 481); `78497` and `78499` fail; and whatever the count
is, the session is not aborted — `run_benchmark` still resolves the unique
name, reports the validation outcome, and appends the statistics record to
the store. -/
theorem validate_primes_spec :
    (∀ c : Nat, validate_primes c = true ↔ c = 78498)
    ∧ validate_primes 78497 = false
    ∧ validate_primes 78499 = false
    ∧ (∀ (file : Option (List StoreLine)) (nameInput : String)
        (pS : Stats) (primeCount : Nat) (piS : Stats) (piVal : ℚ)
        (hS : Stats) (hashSample : String) (mS : Stats) (memSum : Int)
        (rs : List ResultRecord),
        pyStrip nameInput ≠ "" →
        load_results file = .ok rs →
        run_benchmark file nameInput pS primeCount piS piVal hS hashSample mS memSum =
          .ok (some (log_results
                (get_unique_system_name (pyStrip nameInput) (rs.map (·.system_name)))
                pS piS hS (some mS) file),
              [validate_primes primeCount, validate_pi piVal,
               validate_hash hashSample, validate_memory memSum])) := by
  refine ⟨fun c => by simp [validate_primes], rfl, rfl, ?_⟩
  intro file nameInput pS primeCount piS piVal hS hashSample mS memSum rs hname hload
  unfold run_benchmark
  rw [if_neg hname]
  rw [hload]
  rfl

/-- C9 witness: a session entered with name `"sys"` on an empty store and a
reported prime count of `78497` — the validation fails (`false` is reported)
but the record is still appended to the store. -/
theorem validate_primes_spec_witness :
    (pyStrip "sys" ≠ "")
    ∧ (load_results none = .ok [])
    ∧ (validate_primes 78497 = false)
    ∧ run_benchmark none "sys" ⟨1, 1, 1, 0⟩ 78497 ⟨1, 1, 1, 0⟩ 3 ⟨1, 1, 1, 0⟩ "ff" ⟨1, 1, 1, 0⟩ 5 =
        .ok (some (log_results
              (get_unique_system_name (pyStrip "sys")
                (([] : List ResultRecord).map (·.system_name)))
              ⟨1, 1, 1, 0⟩ ⟨1, 1, 1, 0⟩ ⟨1, 1, 1, 0⟩ (some ⟨1, 1, 1, 0⟩) none),
            [validate_primes 78497, validate_pi 3, validate_hash "ff", validate_memory 5]) :=
  ⟨by decide, rfl, rfl,
    validate_primes_spec.2.2.2 none "sys" ⟨1, 1, 1, 0⟩ 78497 ⟨1, 1, 1, 0⟩ 3
      ⟨1, 1, 1, 0⟩ "ff" ⟨1, 1, 1, 0⟩ 5 [] (by decide) rfl⟩

/-! ### Run-over-run comparison (C2, C3) -/

/-- C3 (amended): the comparison block runs only when the *previous* record
has a primes median (new-format guard).  Inside the guard, primes, pi and
hash are compared using both records' medians — with nonzero previous
medians each comparison is `(current - previous) / previous * 100`,
classified `"faster"` exactly when negative and `"slower"` otherwise
(including zero) — and memory is compared exactly when the key is present
in both records.  Nothing else is compared. -/
theorem comparisonEmit_spec (previous current : ResultRecord) (pp pc qp qc hp hc : ℚ)
    (hPp : previous.primes_median = some pp) (hPc : current.primes_median = some pc)
    (hpz : pp ≠ 0)
    (hQp : previous.pi_median = some qp) (hQc : current.pi_median = some qc)
    (hqz : qp ≠ 0)
    (hHp : previous.hash_median = some hp) (hHc : current.hash_median = some hc)
    (hhz : hp ≠ 0) :
    ((previous.memory_median = none ∨ current.memory_median = none) →
      comparisonEmit previous current =
        ([OutLine.cmp "primes" ((pc - pp) / pp * 100)
            (if (pc - pp) / pp * 100 < 0 then "faster" else "slower"),
          OutLine.cmp "pi" ((qc - qp) / qp * 100)
            (if (qc - qp) / qp * 100 < 0 then "faster" else "slower"),
          OutLine.cmp "hash" ((hc - hp) / hp * 100)
            (if (hc - hp) / hp * 100 < 0 then "faster" else "slower")], none))
    ∧ (∀ mp mc : ℚ, previous.memory_median = some mp → mp ≠ 0 →
        current.memory_median = some mc →
        comparisonEmit previous current =
          ([OutLine.cmp "primes" ((pc - pp) / pp * 100)
              (if (pc - pp) / pp * 100 < 0 then "faster" else "slower"),
            OutLine.cmp "pi" ((qc - qp) / qp * 100)
              (if (qc - qp) / qp * 100 < 0 then "faster" else "slower"),
            OutLine.cmp "hash" ((hc - hp) / hp * 100)
              (if (hc - hp) / hp * 100 < 0 then "faster" else "slower"),
            OutLine.cmp "memory" ((mc - mp) / mp * 100)
              (if (mc - mp) / mp * 100 < 0 then "faster" else "slower")], none)) := by
  constructor
  · intro hmem
    have hms : (previous.memory_median.isSome && current.memory_median.isSome) = false := by
      rcases hmem with h | h <;> simp [h]
    simp [comparisonEmit, cmpOne, getField, pctDiff, hPp, hPc, hQp, hQc, hHp, hHc,
      hpz, hqz, hhz, hms, bind, Except.bind, pure, Except.pure]
  · intro mp mc hMp hmz hMc
    simp [comparisonEmit, cmpOne, getField, pctDiff, hPp, hPc, hQp, hQc, hHp, hHc,
      hpz, hqz, hhz, hMp, hMc, hmz, bind, Except.bind, pure, Except.pure]

/-- C3 witness: the spec's example — previous primes median `10.0`, current
`8.0` (pi and hash medians `1.0`) — reports primes delta `-20`, shown as
`20.0%` `"faster"`, and zero deltas for pi and hash classified `"slower"`. -/
theorem comparisonEmit_spec_witness :
    ((coreRec "prev" 10 1 1).memory_median = none ∨ (coreRec "cur" 8 1 1).memory_median = none)
    ∧ comparisonEmit (coreRec "prev" 10 1 1) (coreRec "cur" 8 1 1) =
        ([OutLine.cmp "primes" (-20) "faster",
          OutLine.cmp "pi" 0 "slower",
          OutLine.cmp "hash" 0 "slower"], none)
    ∧ |(-20 : ℚ)| = 20 := by
  refine ⟨Or.inl rfl, ?_, by norm_num⟩
  have h := (comparisonEmit_spec (coreRec "prev" 10 1 1) (coreRec "cur" 8 1 1)
      10 8 1 1 1 1 rfl rfl (by norm_num) rfl rfl (by norm_num) rfl rfl (by norm_num)).1
      (Or.inl rfl)
  norm_num at h
  convert h using 3

/-- C3 counterexample: a workload present in both the previous and the
current record is not necessarily compared — with memory medians in both
records but no primes median in the previous record, the comparison block
emits nothing at all. -/
theorem comparisonEmit_memory_skipped_cex :
    comparisonEmit (memRec "p" 5) (memRec "c" 4) = ([], none) := rfl

/-- C2 (amended): a zero previous primes median makes the percent-delta
computation raise an uncaught `ZeroDivisionError` — the comparison is not
resolved to a zero/neutral value; the fault propagates out of
`show_comparison_and_history` before any comparison line, rank or
consistency output.  (The only guarded divisions in the source are the
single-trial stddev and the variance percentage.) -/
theorem zero_prev_median_faults (hist : List ResultRecord) (previous current : ResultRecord)
    (pS piS hS mS : Stats) (c : ℚ)
    (hPp : previous.primes_median = some 0)
    (hPc : current.primes_median = some c) :
    show_comparison_and_history pS piS hS mS (hist ++ [previous, current])
      = ([], some PyError.zeroDiv) := by
  have hrev : (hist ++ [previous, current]).reverse = current :: previous :: hist.reverse := by
    simp
  have hcmp : comparisonEmit previous current = ([], some PyError.zeroDiv) := by
    simp [comparisonEmit, cmpOne, getField, pctDiff, hPp, hPc,
      bind, Except.bind, pure, Except.pure]
  simp [show_comparison_and_history, hrev, hcmp]

/-- C2 witness: a concrete two-record history whose previous primes median
is zero makes the comparator fault. -/
theorem zero_prev_median_faults_witness :
    ((coreRec "p0" 0 2 3).primes_median = some 0)
    ∧ show_comparison_and_history ⟨2, 1, 3, 1⟩ ⟨2, 1, 3, 1⟩ ⟨2, 1, 3, 1⟩ ⟨2, 1, 3, 1⟩
        ([] ++ [coreRec "p0" 0 2 3, coreRec "c0" 4 5 6]) = ([], some PyError.zeroDiv) :=
  ⟨rfl, zero_prev_median_faults [] (coreRec "p0" 0 2 3) (coreRec "c0" 4 5 6)
    ⟨2, 1, 3, 1⟩ ⟨2, 1, 3, 1⟩ ⟨2, 1, 3, 1⟩ ⟨2, 1, 3, 1⟩ 4 rfl rfl⟩

/-- C2 counterexample: the claim says a zero previous median resolves to a
defined neutral value, but the comparator raises a division-by-zero fault on
this store instead of producing any output. -/
theorem zero_prev_median_cex :
    show_comparison_and_history ⟨1, 1, 1, 0⟩ ⟨1, 1, 1, 0⟩ ⟨1, 1, 1, 0⟩ ⟨1, 1, 1, 0⟩
      [coreRec "a" 0 1 1, coreRec "b" 1 1 1] = ([], some PyError.zeroDiv) := rfl

/-! ### Percentile rank (C8) -/

theorem sorted_pySort (xs : List ℚ) : List.Sorted (· ≤ ·) (pySort xs) :=
  List.sorted_insertionSort (· ≤ ·) xs

theorem perm_pySort (xs : List ℚ) : List.Perm (pySort xs) xs :=
  List.perm_insertionSort (· ≤ ·) xs

/-- On an ascending-sorted list, `list.index` finds the first occurrence of
a member, whose position is the number of strictly smaller elements. -/
theorem pyIndex_sorted (s : List ℚ) (hs : List.Sorted (· ≤ ·) s) (v : ℚ) (hv : v ∈ s) :
    pyIndex s v = .ok (s.countP (fun t => t < v)) := by
  induction s with
  | nil => cases hv
  | cons x rest ih =>
    rw [List.sorted_cons] at hs
    obtain ⟨hx, hrest⟩ := hs
    by_cases hxv : x = v
    · subst hxv
      have hcount : rest.countP (fun t => decide (t < x)) = 0 := by
        rw [List.countP_eq_zero]
        intro a ha
        simpa using not_lt.mpr (hx a ha)
      simp [pyIndex, List.countP_cons, hcount]
    · have hvrest : v ∈ rest := by
        rcases List.mem_cons.mp hv with h | h
        · exact absurd h.symm hxv
        · exact h
      have hxlt : x < v := lt_of_le_of_ne (hx v hvrest) hxv
      simp [pyIndex, hxv, ih hrest hvrest, List.countP_cons, hxlt, Except.map]

/-- C8 (amended): on a history of at least two records whose current (last)
record reports a primes median and whose comparison step completes without
fault, the history section reports a rank line: the 1-based position of the
first occurrence of the current primes median in the ascending sort of the
primes medians of all records that report one (current included) — that is,
one more than the number of strictly smaller collected medians — together
with the total count of collected medians, and no error is raised. -/
theorem percentile_rank_spec (hist : List ResultRecord) (previous current : ResultRecord)
    (pS piS hS mS : Stats) (cm : ℚ)
    (hcm : current.primes_median = some cm)
    (hok : (comparisonEmit previous current).2 = none) :
    OutLine.rank
        (((hist ++ [previous, current]).filterMap (·.primes_median)).countP
            (fun t => t < cm) + 1)
        ((hist ++ [previous, current]).filterMap (·.primes_median)).length
      ∈ (show_comparison_and_history pS piS hS mS (hist ++ [previous, current])).1
    ∧ (show_comparison_and_history pS piS hS mS (hist ++ [previous, current])).2 = none := by
  have hrev : (hist ++ [previous, current]).reverse = current :: previous :: hist.reverse := by
    simp
  rcases hE : comparisonEmit previous current with ⟨L, e⟩
  rw [hE] at hok
  simp only at hok
  subst hok
  have hmem : cm ∈ (hist ++ [previous, current]).filterMap (·.primes_median) :=
    List.mem_filterMap.mpr ⟨current, by simp, hcm⟩
  have hmemS : cm ∈ pySort ((hist ++ [previous, current]).filterMap (·.primes_median)) :=
    (perm_pySort _).mem_iff.mpr hmem
  have hidx := pyIndex_sorted _ (sorted_pySort _) cm hmemS
  have hcnt : (pySort ((hist ++ [previous, current]).filterMap (·.primes_median))).countP
      (fun t => t < cm)
      = ((hist ++ [previous, current]).filterMap (·.primes_median)).countP
          (fun t => t < cm) :=
    (perm_pySort _).countP_eq _
  have hlenS : (pySort ((hist ++ [previous, current]).filterMap (·.primes_median))).length
      = ((hist ++ [previous, current]).filterMap (·.primes_median)).length :=
    (perm_pySort _).length_eq
  rw [hcnt] at hidx
  constructor
  · simp only [show_comparison_and_history, hrev, hE, hcm, hidx, hlenS]
    simp
  · simp only [show_comparison_and_history, hrev, hE, hcm, hidx, hlenS]

/-- C8 witness: the spec's example — primes medians `[10.0, 8.0]` — ranks
the current value `8.0` first of two. -/
theorem percentile_rank_spec_witness :
    ((coreRec "c" 8 1 1).primes_median = some 8)
    ∧ ((comparisonEmit (coreRec "p" 10 1 1) (coreRec "c" 8 1 1)).2 = none)
    ∧ OutLine.rank 1 2 ∈ (show_comparison_and_history ⟨1, 1, 1, 0⟩ ⟨1, 1, 1, 0⟩ ⟨1, 1, 1, 0⟩
        ⟨1, 1, 1, 0⟩ ([] ++ [coreRec "p" 10 1 1, coreRec "c" 8 1 1])).1 := by
  refine ⟨rfl, rfl, ?_⟩
  have h := (percentile_rank_spec [] (coreRec "p" 10 1 1) (coreRec "c" 8 1 1)
      ⟨1, 1, 1, 0⟩ ⟨1, 1, 1, 0⟩ ⟨1, 1, 1, 0⟩ ⟨1, 1, 1, 0⟩ 8 rfl rfl).1
  have hc : (([] ++ [coreRec "p" 10 1 1, coreRec "c" 8 1 1]).filterMap
      (fun r : ResultRecord => r.primes_median)).countP (fun t => t < (8 : ℚ)) + 1 = 1 := by
    decide
  have hl : (([] ++ [coreRec "p" 10 1 1, coreRec "c" 8 1 1]).filterMap
      (fun r : ResultRecord => r.primes_median)).length = 2 := by decide
  rwa [hc, hl] at h

/-- C8 counterexample: the claim quantifies over every history whose current
record reports primes, but with a zero previous primes median the comparator
faults before the history section — no rank is computed although the current
record reports the primes workload. -/
theorem percentile_rank_not_reached_cex :
    show_comparison_and_history ⟨1, 1, 1, 0⟩ ⟨1, 1, 1, 0⟩ ⟨1, 1, 1, 0⟩ ⟨1, 1, 1, 0⟩
      [coreRec "x" 0 1 1, coreRec "y" 2 1 1] = ([], some PyError.zeroDiv) := rfl

/-! ### Trial statistics (C7) -/

theorem foldl_min_le_init (xs : List ℚ) (a : ℚ) : xs.foldl min a ≤ a := by
  induction xs generalizing a with
  | nil => exact le_refl a
  | cons x rest ih => exact le_trans (ih (min a x)) (min_le_left a x)

theorem foldl_min_le_mem (xs : List ℚ) (a : ℚ) : ∀ y ∈ xs, xs.foldl min a ≤ y := by
  induction xs generalizing a with
  | nil => intro y hy; cases hy
  | cons x rest ih =>
    intro y hy
    rcases List.mem_cons.mp hy with h | h
    · subst h
      exact le_trans (foldl_min_le_init rest (min a y)) (min_le_right a y)
    · exact ih (min a x) y h

theorem foldl_min_mem (xs : List ℚ) (a : ℚ) : xs.foldl min a = a ∨ xs.foldl min a ∈ xs := by
  induction xs generalizing a with
  | nil => exact Or.inl rfl
  | cons x rest ih =>
    rcases ih (min a x) with h | h
    · rcases min_choice a x with hm | hm
      · exact Or.inl (by rw [List.foldl_cons, h, hm])
      · exact Or.inr (by rw [List.foldl_cons, h, hm]; exact List.mem_cons_self x rest)
    · exact Or.inr (List.mem_cons_of_mem x h)

theorem init_le_foldl_max (xs : List ℚ) (a : ℚ) : a ≤ xs.foldl max a := by
  induction xs generalizing a with
  | nil => exact le_refl a
  | cons x rest ih => exact le_trans (le_max_left a x) (ih (max a x))

theorem mem_le_foldl_max (xs : List ℚ) (a : ℚ) : ∀ y ∈ xs, y ≤ xs.foldl max a := by
  induction xs generalizing a with
  | nil => intro y hy; cases hy
  | cons x rest ih =>
    intro y hy
    rcases List.mem_cons.mp hy with h | h
    · subst h
      exact le_trans (le_max_right a y) (init_le_foldl_max rest (max a y))
    · exact ih (max a x) y h

theorem pyMin_le_mem (xs : List ℚ) : ∀ y ∈ xs, pyMin xs ≤ y := by
  cases xs with
  | nil => intro y hy; cases hy
  | cons x rest =>
    intro y hy
    rcases List.mem_cons.mp hy with h | h
    · subst h; exact foldl_min_le_init rest y
    · exact foldl_min_le_mem rest x y h

theorem mem_le_pyMax (xs : List ℚ) : ∀ y ∈ xs, y ≤ pyMax xs := by
  cases xs with
  | nil => intro y hy; cases hy
  | cons x rest =>
    intro y hy
    rcases List.mem_cons.mp hy with h | h
    · subst h; exact init_le_foldl_max rest y
    · exact mem_le_foldl_max rest x y h

theorem pyMedian_between (xs : List ℚ) (hx : xs ≠ []) :
    pyMin xs ≤ pyMedian xs ∧ pyMedian xs ≤ pyMax xs := by
  have hlen : (pySort xs).length = xs.length := (perm_pySort xs).length_eq
  have hpos : 0 < xs.length := List.length_pos.mpr hx
  have hmem : ∀ i, i < (pySort xs).length → (pySort xs).getD i 0 ∈ xs := by
    intro i hi
    rw [List.getD_eq_getElem _ _ hi]
    exact (perm_pySort xs).mem_iff.mp (List.getElem_mem _)
  unfold pyMedian
  by_cases hodd : (pySort xs).length % 2 = 1
  · simp only [hodd, if_pos]
    have hi : (pySort xs).length / 2 < (pySort xs).length := by omega
    exact ⟨pyMin_le_mem xs _ (hmem _ hi), mem_le_pyMax xs _ (hmem _ hi)⟩
  · simp only [hodd, if_neg, if_false]
    have h2 : 2 ≤ (pySort xs).length := by omega
    have hi1 : (pySort xs).length / 2 - 1 < (pySort xs).length := by omega
    have hi2 : (pySort xs).length / 2 < (pySort xs).length := by omega
    have ha := hmem _ hi1
    have hb := hmem _ hi2
    constructor
    · have h1 := pyMin_le_mem xs _ ha
      have h2' := pyMin_le_mem xs _ hb
      linarith
    · have h1 := mem_le_pyMax xs _ ha
      have h2' := mem_le_pyMax xs _ hb
      linarith

/-- C7 (confirmed): for every non-empty list of trial durations the
statistics dict satisfies `min <= median <= max`; the stddev is the guarded
value — `0` on a single trial (the `n - 1` division is never evaluated
there), and the Bessel-corrected sample standard deviation (modelled by its
square, `sampleVariance`) for two or more trials. -/
theorem mkTrialStats_spec (times : List ℚ) (h : times ≠ []) :
    (mkTrialStats times).min ≤ (mkTrialStats times).median
    ∧ (mkTrialStats times).median ≤ (mkTrialStats times).max
    ∧ (times.length = 1 → (mkTrialStats times).stddevSq = 0)
    ∧ (1 < times.length → (mkTrialStats times).stddevSq = sampleVariance times) := by
  refine ⟨(pyMedian_between times h).1, (pyMedian_between times h).2, ?_, ?_⟩
  · intro h1
    simp [mkTrialStats, trialStddevSq, h1]
  · intro h1
    simp [mkTrialStats, trialStddevSq, h1]

/-- C7 witness: trials `[3, 1, 2]` give median `2`, min `1`, max `3`,
squared sample stddev `1`; a single trial `[5]` gives stddev `0`. -/
theorem mkTrialStats_spec_witness :
    (([3, 1, 2] : List ℚ) ≠ [])
    ∧ mkTrialStats [3, 1, 2] = ⟨2, 1, 3, 1⟩
    ∧ (mkTrialStats [3, 1, 2]).min ≤ (mkTrialStats [3, 1, 2]).median
    ∧ (mkTrialStats [3, 1, 2]).median ≤ (mkTrialStats [3, 1, 2]).max
    ∧ (mkTrialStats [(5 : ℚ)]).stddevSq = 0 := by
  refine ⟨by simp,
    by norm_num [mkTrialStats, pyMedian, pySort, List.insertionSort, List.orderedInsert,
      pyMin, pyMax, trialStddevSq, sampleVariance, listMean],
    (mkTrialStats_spec [3, 1, 2] (by simp)).1,
    (mkTrialStats_spec [3, 1, 2] (by simp)).2.1,
    (mkTrialStats_spec [(5 : ℚ)] (by simp)).2.2.1 rfl⟩

/-! ### Unique system name (C5) -/

theorem digitChar_inj_lt : ∀ a < 10, ∀ b < 10, Nat.digitChar a = Nat.digitChar b → a = b := by
  decide

/-- The decimal digit string of a natural number, written as plain
structural recursion; below it is proved equal to core's fuelled
`Nat.toDigits 10`. -/
def digitsRep (n : Nat) : List Char :=
  if h : n < 10 then [Nat.digitChar n]
  else
    have : n / 10 < n := Nat.div_lt_self (by omega) (by omega)
    digitsRep (n / 10) ++ [Nat.digitChar (n % 10)]

theorem digitsRep_of_lt {n : Nat} (h : n < 10) : digitsRep n = [Nat.digitChar n] := by
  rw [digitsRep]
  exact dif_pos h

theorem digitsRep_of_ge {n : Nat} (h : ¬ n < 10) :
    digitsRep n = digitsRep (n / 10) ++ [Nat.digitChar (n % 10)] := by
  rw [digitsRep]
  exact dif_neg h

theorem digitsRep_ne_nil (n : Nat) : digitsRep n ≠ [] := by
  by_cases h : n < 10
  · rw [digitsRep_of_lt h]
    simp
  · rw [digitsRep_of_ge h]
    simp

theorem toDigitsCore_eq (fuel : Nat) : ∀ (n : Nat) (ds : List Char), n ≤ fuel →
    Nat.toDigitsCore 10 (fuel + 1) n ds = digitsRep n ++ ds := by
  induction fuel with
  | zero =>
    intro n ds hn
    have h0 : n = 0 := by omega
    subst h0
    simp [Nat.toDigitsCore, digitsRep_of_lt (by norm_num : (0 : Nat) < 10)]
  | succ fuel ih =>
    intro n ds hn
    by_cases h10 : n < 10
    · have hdiv : n / 10 = 0 := Nat.div_eq_of_lt h10
      have hmod : n % 10 = n := Nat.mod_eq_of_lt h10
      simp [Nat.toDigitsCore, hdiv, hmod, digitsRep_of_lt h10]
    · have hne : ¬ n / 10 = 0 := by
        have := Nat.div_add_mod n 10
        have hm : n % 10 < 10 := Nat.mod_lt n (by omega)
        omega
      have hstep : Nat.toDigitsCore 10 (fuel + 1 + 1) n ds
          = Nat.toDigitsCore 10 (fuel + 1) (n / 10) (Nat.digitChar (n % 10) :: ds) := by
        simp [Nat.toDigitsCore, hne]
      have hdivlt : n / 10 < n := Nat.div_lt_self (by omega) (by omega)
      rw [hstep, ih (n / 10) _ (by omega), digitsRep_of_ge h10, List.append_assoc]
      rfl

theorem toDigits_eq_digitsRep (n : Nat) : Nat.toDigits 10 n = digitsRep n := by
  have := toDigitsCore_eq n n [] (le_refl n)
  simpa [Nat.toDigits] using this

theorem digitsRep_inj : ∀ m n : Nat, digitsRep m = digitsRep n → m = n := by
  intro m
  induction m using Nat.strong_induction_on with
  | _ m ih =>
    intro n h
    by_cases hm : m < 10 <;> by_cases hn : n < 10
    · rw [digitsRep_of_lt hm, digitsRep_of_lt hn] at h
      exact digitChar_inj_lt m hm n hn (List.singleton_injective h)
    · rw [digitsRep_of_lt hm, digitsRep_of_ge hn] at h
      have hlen := congrArg List.length h
      rw [List.length_append] at hlen
      simp only [List.length_singleton] at hlen
      have h0 : (digitsRep (n / 10)).length = 0 := by omega
      exact absurd (List.length_eq_zero.mp h0) (digitsRep_ne_nil (n / 10))
    · rw [digitsRep_of_ge hm, digitsRep_of_lt hn] at h
      have hlen := congrArg List.length h
      rw [List.length_append] at hlen
      simp only [List.length_singleton] at hlen
      have h0 : (digitsRep (m / 10)).length = 0 := by omega
      exact absurd (List.length_eq_zero.mp h0) (digitsRep_ne_nil (m / 10))
    · rw [digitsRep_of_ge hm, digitsRep_of_ge hn] at h
      obtain ⟨h1, h2⟩ := List.append_inj' h rfl
      have hdiv : m / 10 = n / 10 :=
        ih (m / 10) (Nat.div_lt_self (by omega) (by omega)) (n / 10) h1
      have hmod : m % 10 = n % 10 :=
        digitChar_inj_lt (m % 10) (Nat.mod_lt m (by omega)) (n % 10) (Nat.mod_lt n (by omega))
          (List.singleton_injective h2)
      have hm10 := Nat.div_add_mod m 10
      have hn10 := Nat.div_add_mod n 10
      omega

theorem nat_repr_inj (m n : Nat) (h : Nat.repr m = Nat.repr n) : m = n := by
  apply digitsRep_inj
  rw [← toDigits_eq_digitsRep, ← toDigits_eq_digitsRep]
  have hd := congrArg String.data h
  simpa [Nat.repr, List.asString] using hd

theorem mkLabel_inj (base : String) (k1 k2 : Nat) (h : mkLabel base k1 = mkLabel base k2) :
    k1 = k2 := by
  apply nat_repr_inj
  apply String.ext
  have hd := congrArg String.data h
  simp only [mkLabel, String.data_append] at hd
  exact List.append_inj_right hd rfl

theorem exists_free_label (base : String) (existing : List String) :
    ∃ k, 2 ≤ k ∧ k ≤ 2 + existing.length ∧ mkLabel base k ∉ existing := by
  by_contra hall
  push_neg at hall
  have hinj : Set.InjOn (mkLabel base) ↑(Finset.Icc 2 (2 + existing.length)) :=
    fun a _ b _ hab => mkLabel_inj base a b hab
  have hsub : (Finset.Icc 2 (2 + existing.length)).image (mkLabel base)
      ⊆ existing.toFinset := by
    intro s hs
    simp only [Finset.mem_image] at hs
    obtain ⟨k, hk, rfl⟩ := hs
    rw [Finset.mem_Icc] at hk
    rw [List.mem_toFinset]
    exact hall k hk.1 hk.2
  have hcard := Finset.card_le_card hsub
  rw [Finset.card_image_of_injOn hinj, Nat.card_Icc] at hcard
  have := existing.toFinset_card_le
  omega

theorem findSuffixFrom_least (base : String) (existing : List String) :
    ∀ (fuel counter : Nat),
      (∃ k, counter ≤ k ∧ k < counter + fuel ∧ mkLabel base k ∉ existing) →
      counter ≤ findSuffixFrom base existing fuel counter
      ∧ mkLabel base (findSuffixFrom base existing fuel counter) ∉ existing
      ∧ ∀ j, counter ≤ j → j < findSuffixFrom base existing fuel counter →
          mkLabel base j ∈ existing := by
  intro fuel
  induction fuel with
  | zero =>
    intro counter hex
    obtain ⟨k, h1, h2, _⟩ := hex
    omega
  | succ fuel ih =>
    intro counter hex
    by_cases hmem : mkLabel base counter ∈ existing
    · have hres : findSuffixFrom base existing (fuel + 1) counter
          = findSuffixFrom base existing fuel (counter + 1) := by
        simp [findSuffixFrom, hmem]
      obtain ⟨k, hk1, hk2, hk3⟩ := hex
      have hk1' : counter + 1 ≤ k := by
        rcases Nat.eq_or_lt_of_le hk1 with heq | h
        · exact absurd hmem (heq ▸ hk3)
        · omega
      obtain ⟨r1, r2, r3⟩ := ih (counter + 1) ⟨k, hk1', by omega, hk3⟩
      rw [hres]
      refine ⟨by omega, r2, ?_⟩
      intro j hj1 hj2
      rcases Nat.eq_or_lt_of_le hj1 with heq | h
      · exact heq ▸ hmem
      · exact r3 j (by omega) hj2
    · have hres : findSuffixFrom base existing (fuel + 1) counter = counter := by
        simp [findSuffixFrom, hmem]
      rw [hres]
      refine ⟨le_refl _, hmem, ?_⟩
      intro j hj1 hj2
      exact absurd (lt_of_le_of_lt hj1 hj2) (lt_irrefl counter)

/-- C5 (confirmed): `get_unique_system_name` returns the requested label
unchanged when it is not among the existing names, and otherwise the label
suffixed with `_k` for the least `k >= 2` whose suffixed label is free:
the returned candidate is free and every earlier candidate from `_2` on is
taken. -/
theorem resolve_unique_spec (base : String) (existing : List String) :
    (base ∉ existing → get_unique_system_name base existing = base)
    ∧ (base ∈ existing → ∃ k, 2 ≤ k
        ∧ get_unique_system_name base existing = mkLabel base k
        ∧ mkLabel base k ∉ existing
        ∧ ∀ j, 2 ≤ j → j < k → mkLabel base j ∈ existing) := by
  constructor
  · intro h
    simp [get_unique_system_name, h]
  · intro h
    obtain ⟨k0, hk1, hk2, hk3⟩ := exists_free_label base existing
    have hex : ∃ k, 2 ≤ k ∧ k < 2 + suffixFuel existing ∧ mkLabel base k ∉ existing :=
      ⟨k0, hk1, by simp only [suffixFuel]; omega, hk3⟩
    obtain ⟨r1, r2, r3⟩ := findSuffixFrom_least base existing (suffixFuel existing) 2 hex
    refine ⟨findSuffixFrom base existing (suffixFuel existing) 2, r1, ?_, r2, r3⟩
    simp [get_unique_system_name, h]

/-- C5 witness: the spec's three examples — a fresh label is returned
unchanged, `"x"` against `{"x"}` becomes `"x_2"`, and against
`{"x", "x_2"}` becomes `"x_3"`. -/
theorem resolve_unique_spec_witness :
    ("x" ∉ ([] : List String))
    ∧ get_unique_system_name "x" [] = "x"
    ∧ get_unique_system_name "x" ["x"] = "x_2"
    ∧ get_unique_system_name "x" ["x", "x_2"] = "x_3"
    ∧ ("x" ∈ ["x", "x_2"])
    ∧ (∃ k, 2 ≤ k
        ∧ get_unique_system_name "x" ["x", "x_2"] = mkLabel "x" k
        ∧ mkLabel "x" k ∉ ["x", "x_2"]
        ∧ ∀ j, 2 ≤ j → j < k → mkLabel "x" j ∈ ["x", "x_2"]) :=
  ⟨by decide, (resolve_unique_spec "x" []).1 (by decide), by decide, by decide, by decide,
    (resolve_unique_spec "x" ["x", "x_2"]).2 (by decide)⟩
